import Mathlib

/-!
Verification of the Nubi nginx control-plane daemon.

Shallow embedding of the Go sources:
  internal/nginx/proxy_host.go   (ProxyHost data model, ProxyHostManager CRUD,
                                  config rendering, filename derivation, validation)
  internal/nginx/controller.go   (nginx invocations; modelled as an external
                                  reload outcome flag, since the binary is external)
  internal/api/hosts.go          (host HTTP handlers, export/import)
  internal/api/certificates.go   (certificate/tag HTTP handlers)
  internal/api/letsencrypt.go    (auto-renew scan)
  the certificate manager source (Certificate/Tag data model, CertificateManager)

Strings are lists of characters; machine integers are Int (Go int64 nanosecond
durations are modelled exactly, so the float `Hours()/24` conversion of the
renewal scan is modelled as exact truncated integer division, its real-number
meaning).  Locks are no-ops in this sequential model; `panic` is modelled as an
explicit outcome constructor.  File-system state (sites-available contents,
sites-enabled symlinks, the persisted JSON data file) is explicit.
-/

abbrev Str := List Char

/-- Character-list prefix test (argument order: prefix pattern, then string). -/
def strStartsWith : Str → Str → Bool
  | [], _ => true
  | _ :: _, [] => false
  | p :: ps, c :: cs => p = c && strStartsWith ps cs

/-- Substring test: does the needle (second argument) occur in the haystack? -/
def strContains : Str → Str → Bool
  | [], needle => needle.isEmpty
  | c :: cs, needle => strStartsWith needle (c :: cs) || strContains cs needle

/-- Split a character list at every occurrence of the separator.
Never returns an empty list; empty segments are kept (as the Go regex and
`strings.Split` semantics require). -/
def splitOnChar (sep : Char) : Str → List Str
  | [] => [[]]
  | c :: rest =>
    if c = sep then [] :: splitOnChar sep rest
    else
      match splitOnChar sep rest with
      | [] => [[c]]
      | l :: ls => (c :: l) :: ls

/-- Drop leading space characters. -/
def trimSpaces (s : Str) : Str := s.dropWhile (fun c => c = ' ')

/-! ## Domain validation — proxy_host.go `validateDomain` -/

/-- `[a-zA-Z0-9]` in the Go regex. -/
def isAlnumChar (c : Char) : Bool :=
  ('a' ≤ c && c ≤ 'z') || ('A' ≤ c && c ≤ 'Z') || ('0' ≤ c && c ≤ '9')

/-- `[a-zA-Z0-9-]` in the Go regex. -/
def isAlnumHyphen (c : Char) : Bool := isAlnumChar c || c = '-'

/-- One label of the Go regex `[a-zA-Z0-9]([a-zA-Z0-9-]*[a-zA-Z0-9])?`:
nonempty, alphanumeric first and last character, alphanumeric-or-hyphen
in between. -/
def labelOk : Str → Bool
  | [] => false
  | c :: cs => isAlnumChar c && cs.all isAlnumHyphen && isAlnumChar (cs.getLastD c)

/-- The whole-string match of the Go regex
`^[a-zA-Z0-9]([a-zA-Z0-9-]*[a-zA-Z0-9])?(\.[a-zA-Z0-9]([a-zA-Z0-9-]*[a-zA-Z0-9])?)*$`:
the string is a dot-separated sequence of valid labels. -/
def domainRegexOk (d : Str) : Bool := (splitOnChar '.' d).all labelOk

/-- `strings.TrimPrefix(domain, "*.")`. -/
def stripWildcard (d : Str) : Str :=
  match d with
  | '*' :: '.' :: rest => rest
  | _ => d

/-- proxy_host.go `validateDomain`: nonempty, and after stripping a leading
`*.` the remainder matches the domain regex. `true` means the Go function
returns nil. -/
def validateDomain (d : Str) : Bool := !d.isEmpty && domainRegexOk (stripWildcard d)

/-- proxy_host.go `validateTarget`: nonempty and an `http://` or `https://`
scheme prefix. -/
def validateTarget (t : Str) : Bool :=
  !t.isEmpty && (strStartsWith "http://".data t || strStartsWith "https://".data t)

/-! ## Filename derivation — proxy_host.go `configPath` / `symlinkPath` -/

/-- `strings.ReplaceAll(domain, "*", "_wildcard_")`. -/
def replaceStar : Str → Str
  | [] => []
  | c :: cs => (if c = '*' then "_wildcard_".data else [c]) ++ replaceStar cs

/-- The character map of `strings.ReplaceAll(·, ".", "_")`. -/
def dotRepl (c : Char) : Char := if c = '.' then '_' else c

/-- The sanitized domain used for config filenames: `*` becomes `_wildcard_`,
then `.` becomes `_`. -/
def mangleDomain (d : Str) : Str := (replaceStar d).map dotRepl

/-- Filename of the sites-available fragment (`configPath`, name part). -/
def configFileName (domain : Str) : Str :=
  "nubi-host-".data ++ mangleDomain domain ++ ".conf".data

/-- Filename of the sites-enabled symlink (`symlinkPath`, name part). -/
def symlinkFileName (domain : Str) : Str :=
  "nubi-host-".data ++ mangleDomain domain ++ ".conf".data

/-- Full path under a directory (`filepath.Join dir name`). -/
def joinPath (dir name : Str) : Str := dir ++ "/".data ++ name

/-- Inverse of `mangleDomain` on validated domains: used to prove injectivity. -/
def undotRepl (c : Char) : Char := if c = '_' then '.' else c

/-- Recover a domain from its mangled filename stem. -/
def unmangleDomain (s : Str) : Str :=
  if strStartsWith "_wildcard_".data s then '*' :: (s.drop 10).map undotRepl
  else s.map undotRepl

/-! ## Data model — proxy_host.go -/

structure Backend where
  address : Str
  weight : Int
  backup : Bool
deriving DecidableEq

structure ProxyHost where
  id : Str
  domain : Str
  target : Str
  backends : List Backend
  lbMethod : Str
  ssl : Bool
  forceSSL : Bool
  certificateId : Str
  certPath : Str
  keyPath : Str
  enabled : Bool
  maintenance : Bool
  websocket : Bool
  customNginx : Str
  tags : List Str
  createdAt : Int
  updatedAt : Int
deriving DecidableEq

/-- `ProxyHost.HasLoadBalancing`: more than one backend. -/
def hasLoadBalancing (h : ProxyHost) : Bool := decide (1 < h.backends.length)

/-- `ProxyHost.UpstreamName`: `nubi_` plus the domain with every
non-alphanumeric character replaced by `_`. -/
def upstreamName (h : ProxyHost) : Str :=
  "nubi_".data ++ h.domain.map (fun c => if isAlnumChar c then c else '_')

/-! ## Config rendering — proxy_host.go `proxyHostTemplate`

The Go `text/template` output is reproduced literally, with the `{{-`
left-trim semantics applied once and for all (each `{{-` action removes the
whitespace, including newlines, that precedes it in the template text). -/

/-- One `server …;` line of the upstream block. -/
def backendLine (b : Backend) : Str :=
  "\n    server ".data ++ b.address ++
  (if 1 < b.weight then " weight=".data ++ (Int.repr b.weight).data else []) ++
  (if b.backup then " backup".data else []) ++
  ";".data

/-- The rendered nginx fragment for a host, byte for byte. -/
def renderProxyHost (h : ProxyHost) : Str :=
  "# Nubi managed proxy host: ".data ++ h.domain ++
  "\n# Do not edit manually - changes will be overwritten\n# Host ID: ".data ++ h.id ++
  (if hasLoadBalancing h then
    "\n# Load Balancing Upstream\nupstream ".data ++ upstreamName h ++ " \x7b".data ++
    (if h.lbMethod = "least_conn".data then "\n    least_conn;".data
     else if h.lbMethod = "ip_hash".data then "\n    ip_hash;".data else []) ++
    (h.backends.map backendLine).flatten ++
    "\n\x7d".data
   else []) ++
  "\n\nserver \x7b\n    listen 80;".data ++
  (if h.ssl then "\n    listen 443 ssl http2;".data else []) ++
  "\n    server_name ".data ++ h.domain ++ ";".data ++
  (if h.ssl && h.forceSSL then
    "\n    # Force HTTPS redirect\n    if ($scheme = http) \x7b\n        return 301 https://$host$request_uri;\n    \x7d".data
   else []) ++
  (if h.ssl then
    "\n    # SSL Configuration (placeholder - integrate with Let\x27s Encrypt)\n    # ssl_certificate /etc/letsencrypt/live/".data
      ++ h.domain ++
    "/fullchain.pem;\n    # ssl_certificate_key /etc/letsencrypt/live/".data
      ++ h.domain ++ "/privkey.pem;".data
   else []) ++
  (if h.maintenance then
    "\n    # Maintenance mode - return 503 with custom page\n    root /var/lib/nubi/html;\n    error_page 503 /nubi_maintenance.html;\n    location / \x7b\n        return 503;\n    \x7d\n    location = /nubi_maintenance.html \x7b\n        internal;\n    \x7d".data
   else
    "\n    location / \x7b".data ++
    (if hasLoadBalancing h then
      "\n        proxy_pass http://".data ++ upstreamName h ++ ";".data
     else
      "\n        proxy_pass ".data ++ h.target ++ ";".data) ++
    "\n        proxy_http_version 1.1;\n        \n        # Standard proxy headers\n        proxy_set_header Host $host;\n        proxy_set_header X-Real-IP $remote_addr;\n        proxy_set_header X-Forwarded-For $proxy_add_x_forwarded_for;\n        proxy_set_header X-Forwarded-Proto $scheme;".data ++
    (if h.websocket then
      "\n        # WebSocket support\n        proxy_set_header Upgrade $http_upgrade;\n        proxy_set_header Connection \"upgrade\";\n        proxy_read_timeout 86400;".data
     else []) ++
    "\n    \x7d".data) ++
  (if h.customNginx ≠ [] then "\n\n    # Custom configuration\n".data ++ h.customNginx else []) ++
  "\n\x7d\n".data

/-- A fragment line holds an active (uncommented) nginx directive `name`
whose argument mentions `path`: some line, after its indentation, starts
with the directive name and contains the path.  (Comment lines start with
`#` after indentation, so they never satisfy this.) -/
def hasActiveDirective (frag name path : Str) : Bool :=
  (splitOnChar '\n' frag).any (fun l =>
    strStartsWith name (trimSpaces l) && strContains (trimSpaces l) path)

/-! ## File-system and state-store model

`Sys` is the observable state owned by a `ProxyHostManager`: the in-memory
host map (as a list with map semantics: ids are keys), the persisted JSON
data file, the contents of sites-available (filename to fragment bytes) and
the set of sites-enabled symlink names. -/

structure Sys where
  hosts : List ProxyHost
  dataFile : List ProxyHost
  avail : List (Str × Str)
  enabledLinks : List Str
deriving DecidableEq

def emptySys : Sys := ⟨[], [], [], []⟩

/-- `os.Create` then template execution: create or truncate the file. -/
def setAvail (fs : List (Str × Str)) (name content : Str) : List (Str × Str) :=
  if fs.any (fun p => decide (p.1 = name)) then
    fs.map (fun p => if p.1 = name then (name, content) else p)
  else fs ++ [(name, content)]

def removeAvail (fs : List (Str × Str)) (name : Str) : List (Str × Str) :=
  fs.filter (fun p => decide (p.1 ≠ name))

def lookupAvail (fs : List (Str × Str)) (name : Str) : Option Str :=
  (fs.find? (fun p => decide (p.1 = name))).map (fun p => p.2)

def removeLink (ls : List Str) (name : Str) : List Str :=
  ls.filter (fun l => decide (l ≠ name))

/-- In-place mutation of the host with the given id (Go mutates the pointer
stored in the map). -/
def replaceById (l : List ProxyHost) (i : Str) (v : ProxyHost) : List ProxyHost :=
  l.map (fun x => if x.id = i then v else x)

/-- Go map assignment `m[key] = v`: replace the entry with that id if present,
otherwise append. -/
def insertHost (l : List ProxyHost) (h : ProxyHost) : List ProxyHost :=
  if l.any (fun x => decide (x.id = h.id)) then replaceById l h.id h
  else l ++ [h]

/-- `ProxyHostManager.save`: serialize the host map to the data file. -/
def saveSys (s : Sys) : Sys := { s with dataFile := s.hosts }

/-- `ProxyHostManager.updateSymlink`: remove any existing symlink, recreate it
iff the host is enabled. -/
def updateSymlink (s : Sys) (h : ProxyHost) : Sys :=
  let ls := removeLink s.enabledLinks (symlinkFileName h.domain)
  { s with enabledLinks := if h.enabled then ls ++ [symlinkFileName h.domain] else ls }

/-- `ProxyHostManager.writeNginxConfig`: render the fragment into
sites-available, then fix the symlink. -/
def writeNginxConfig (s : Sys) (h : ProxyHost) : Sys :=
  updateSymlink { s with avail := setAvail s.avail (configFileName h.domain) (renderProxyHost h) } h

/-- `ProxyHostManager.removeNginxConfig`: remove symlink and fragment. -/
def removeNginxConfig (s : Sys) (domain : Str) : Sys :=
  { s with
    enabledLinks := removeLink s.enabledLinks (symlinkFileName domain),
    avail := removeAvail s.avail (configFileName domain) }

inductive MutOut where
  | ok
  | err (msg : Str)
deriving DecidableEq

/-- `ProxyHostManager.Create`.  `newId` stands for the generated UUID and
`now` for `time.Now()`. -/
def createHost (s : Sys) (req : ProxyHost) (newId : Str) (now : Int) : Sys × MutOut :=
  if !validateDomain req.domain then (s, .err "invalid domain format".data)
  else if req.backends.isEmpty && !validateTarget req.target then
    (s, .err "invalid target".data)
  else if s.hosts.any (fun h => decide (h.domain = req.domain)) then
    (s, .err "domain already exists".data)
  else
    let host := { req with id := newId, createdAt := now, updatedAt := now }
    let s1 := writeNginxConfig s host
    let s2 := { s1 with hosts := insertHost s1.hosts host }
    (saveSys s2, .ok)

/-- The field assignments of `ProxyHostManager.Update`: every request field is
copied onto the stored record; only `id` and `createdAt` are kept. -/
def mergeUpdate (host updates : ProxyHost) (now : Int) : ProxyHost :=
  { host with
    domain := updates.domain, target := updates.target,
    backends := updates.backends, lbMethod := updates.lbMethod,
    ssl := updates.ssl, forceSSL := updates.forceSSL,
    enabled := updates.enabled, maintenance := updates.maintenance,
    websocket := updates.websocket, customNginx := updates.customNginx,
    certificateId := updates.certificateId, certPath := updates.certPath,
    keyPath := updates.keyPath, tags := updates.tags, updatedAt := now }

/-- `ProxyHostManager.Update`. -/
def updateHost (s : Sys) (id : Str) (updates : ProxyHost) (now : Int) : Sys × MutOut :=
  match s.hosts.find? (fun h => decide (h.id = id)) with
  | none => (s, .err "proxy host not found".data)
  | some host =>
    if updates.domain ≠ host.domain ∧
        s.hosts.any (fun h => decide (h.id ≠ id) && decide (h.domain = updates.domain)) then
      (s, .err "domain already exists".data)
    else
      let host1 := mergeUpdate host updates now
      let s1 := { s with hosts := replaceById s.hosts id host1 }
      let s2 := if host.domain ≠ host1.domain then removeNginxConfig s1 host.domain else s1
      (saveSys (writeNginxConfig s2 host1), .ok)

/-- `ProxyHostManager.Delete`. -/
def deleteHost (s : Sys) (id : Str) : Sys × MutOut :=
  match s.hosts.find? (fun h => decide (h.id = id)) with
  | none => (s, .err "proxy host not found".data)
  | some host =>
    let s1 := { s with hosts := s.hosts.filter (fun h => decide (h.id ≠ id)) }
    (saveSys (removeNginxConfig s1 host.domain), .ok)

/-- `ProxyHostManager.Toggle`. -/
def toggleHost (s : Sys) (id : Str) (enabled : Bool) (now : Int) : Sys × MutOut :=
  match s.hosts.find? (fun h => decide (h.id = id)) with
  | none => (s, .err "proxy host not found".data)
  | some host =>
    let host1 := { host with enabled := enabled, updatedAt := now }
    let s1 := { s with hosts := replaceById s.hosts id host1 }
    (saveSys (updateSymlink s1 host1), .ok)

/-! ## ApplyCertificate, the mutex discipline of `save`, and `writeConfig`

`ApplyCertificate` is the one mutator that calls `m.save()` while still
holding `m.mu.Lock()` (its unlock is deferred to the end of the method);
`save` begins with `m.mu.RLock()` on the same non-reentrant `sync.RWMutex`,
so that acquisition blocks forever even in a single goroutine.  The lock
state is therefore modelled explicitly here.  The other mutators (Create,
Update, Delete, Toggle, SetMaintenance) release the mutex before calling
`save`, so for them the acquisition succeeds and their embeddings inline the
completed `saveSys`. -/

inductive ApplyOut where
  | ok
  | errNotFound (msg : Str)
  | deadlocked
  | panicked (msg : Str)
deriving DecidableEq

/-- `m.mu.RLock()` in this single-goroutine model of `sync.RWMutex`: the
mutex is not reentrant, so when the calling method still holds the write
lock the acquisition never completes (`none`); otherwise it succeeds. -/
def rwMutexRLock (writeHeld : Bool) : Option Unit :=
  if writeHeld then none else some ()

/-- `ProxyHostManager.save` together with its locking prologue: it first
performs `m.mu.RLock()`; only past the lock is the host map serialized to
the data file.  `none` means the call blocks forever. -/
def saveUnderLock (writeHeld : Bool) (s : Sys) : Option Sys :=
  match rwMutexRLock writeHeld with
  | none => none
  | some _ => some (saveSys s)

/-- `ProxyHostManager.writeConfig`: the body is `panic("unimplemented")`; it
aborts before touching any state. -/
def writeConfig (s : Sys) (_host : ProxyHost) : Sys × ApplyOut :=
  (s, .panicked "unimplemented".data)

/-- The field assignments `ApplyCertificate` performs on the host record. -/
def applyCertForm (host : ProxyHost) (certID certPath keyPath : Str) (now : Int) : ProxyHost :=
  { host with
    certificateId := certID, certPath := certPath, keyPath := keyPath,
    ssl := true, updatedAt := now }

/-- `ProxyHostManager.ApplyCertificate`: takes `m.mu.Lock()` with a deferred
unlock, looks up the host, sets the certificate binding and `ssl` on the
in-memory record, then calls `m.save()` — still write-holding the mutex, so
`save` is invoked with `writeHeld = true` and blocks on its `RLock`.  A
`.deadlocked` result carries the state at the moment the call blocks: the
in-memory map is mutated, the data file and the fragments are not.  Were the
lock ever granted, `writeConfig` would panic next. -/
def applyCertificate (s : Sys) (hostID certID certPath keyPath : Str) (now : Int) :
    Sys × ApplyOut :=
  match s.hosts.find? (fun h => decide (h.id = hostID)) with
  | none => (s, .errNotFound "host not found".data)
  | some host =>
    let host1 := applyCertForm host certID certPath keyPath now
    let s1 := { s with hosts := replaceById s.hosts hostID host1 }
    match saveUnderLock true s1 with
    | none => (s1, .deadlocked)
    | some s2 => writeConfig s2 host1

/-! ## HTTP handlers — api/hosts.go

`reloadOk` stands for the outcome of the external `nginx -s reload` child
process.  No handler invokes `nginx -t` (`CheckConfig`), so no validity
information enters any of these functions. -/

inductive HostResponse where
  | badRequest (msg : Str)
  | okWarning (msg : Str)
  | ok
deriving DecidableEq

structure HandlerOut where
  sys : Sys
  resp : HostResponse
  reloadCalled : Bool
deriving DecidableEq

/-- `handleCreateHost`: require target or backends, create, then reload iff
the new host is enabled. -/
def handleCreateHost (s : Sys) (req : ProxyHost) (newId : Str) (now : Int)
    (reloadOk : Bool) : HandlerOut :=
  if req.target.isEmpty && req.backends.isEmpty then
    ⟨s, .badRequest "Either target or backends is required".data, false⟩
  else
    match createHost s req newId now with
    | (s1, .err m) => ⟨s1, .badRequest m, false⟩
    | (s1, .ok) =>
      if req.enabled then
        if reloadOk then ⟨s1, .ok, true⟩
        else ⟨s1, .okWarning "Host created but nginx reload failed".data, true⟩
      else ⟨s1, .ok, false⟩

/-- `handleUpdateHost`: update, then reload unconditionally on success. -/
def handleUpdateHost (s : Sys) (id : Str) (req : ProxyHost) (now : Int)
    (reloadOk : Bool) : HandlerOut :=
  match updateHost s id req now with
  | (s1, .err m) => ⟨s1, .badRequest m, false⟩
  | (s1, .ok) =>
    if reloadOk then ⟨s1, .ok, true⟩
    else ⟨s1, .okWarning "Host updated but nginx reload failed".data, true⟩

/-- `handleDeleteHost`. -/
def handleDeleteHost (s : Sys) (id : Str) (reloadOk : Bool) : HandlerOut :=
  match deleteHost s id with
  | (s1, .err m) => ⟨s1, .badRequest m, false⟩
  | (s1, .ok) =>
    if reloadOk then ⟨s1, .ok, true⟩
    else ⟨s1, .okWarning "Host deleted but nginx reload failed".data, true⟩

/-- `handleToggleHost`. -/
def handleToggleHost (s : Sys) (id : Str) (enabled : Bool) (now : Int)
    (reloadOk : Bool) : HandlerOut :=
  match toggleHost s id enabled now with
  | (s1, .err m) => ⟨s1, .badRequest m, false⟩
  | (s1, .ok) =>
    if reloadOk then ⟨s1, .ok, true⟩
    else ⟨s1, .okWarning "Host toggled but nginx reload failed".data, true⟩

/-! ## Export / import — api/hosts.go -/

/-- `handleExportHosts` payload: the full host records. -/
def exportHosts (s : Sys) : List ProxyHost := s.hosts

/-- The `updates` / `newHost` struct literal built inside `handleImportHosts`:
only Domain, Target, Backends, LBMethod, SSL, ForceSSL, Enabled, Maintenance,
WebSocket and CustomNginx are copied from the incoming record; Tags and the
certificate binding fields are left at their zero values. -/
def importScrub (h : ProxyHost) : ProxyHost :=
  { id := [], domain := h.domain, target := h.target, backends := h.backends,
    lbMethod := h.lbMethod, ssl := h.ssl, forceSSL := h.forceSSL,
    certificateId := [], certPath := [], keyPath := [],
    enabled := h.enabled, maintenance := h.maintenance, websocket := h.websocket,
    customNginx := h.customNginx, tags := [], createdAt := 0, updatedAt := 0 }

structure ImportState where
  sys : Sys
  imported : Nat
  skipped : Nat
  errs : List Str
  fresh : Nat
deriving DecidableEq

/-- One iteration of the import loop: match by domain against the current
store; update (preserving the id) under `overwrite`, skip otherwise, create
when no domain matches.  `gen` supplies the UUIDs for created hosts. -/
def importOne (overwrite : Bool) (gen : Nat → Str) (now : Int)
    (st : ImportState) (h : ProxyHost) : ImportState :=
  match st.sys.hosts.find? (fun e => decide (e.domain = h.domain)) with
  | some existing =>
    if overwrite then
      match updateHost st.sys existing.id (importScrub h) now with
      | (s1, .ok) => { st with sys := s1, imported := st.imported + 1 }
      | (s1, .err m) => { st with sys := s1, errs := st.errs ++ [m] }
    else { st with skipped := st.skipped + 1 }
  | none =>
    match createHost st.sys (importScrub h) (gen st.fresh) now with
    | (s1, .ok) => { st with sys := s1, imported := st.imported + 1, fresh := st.fresh + 1 }
    | (s1, .err m) => { st with sys := s1, errs := st.errs ++ [m] }

/-- `handleImportHosts`: reject an empty list, else run the loop. -/
def handleImportHosts (s : Sys) (reqHosts : List ProxyHost) (overwrite : Bool)
    (gen : Nat → Str) (now : Int) : ImportState :=
  if reqHosts.isEmpty then ⟨s, 0, 0, [], 0⟩
  else reqHosts.foldl (importOne overwrite gen now) ⟨s, 0, 0, [], 0⟩

/-- What one overwrite-import of an exported host leaves in the store: the
original record with tag and certificate binding fields cleared and a fresh
`updatedAt`. -/
def importedForm (now : Int) (h : ProxyHost) : ProxyHost :=
  { h with tags := [], certificateId := [], certPath := [], keyPath := [],
           updatedAt := now }

/-- Erase `updatedAt` (for "equal modulo updatedAt" statements). -/
def clrUpdatedAt (h : ProxyHost) : ProxyHost := { h with updatedAt := 0 }

/-! ## Certificates and tags — certificate manager source, api/certificates.go -/

structure Tag where
  id : Str
  name : Str
  color : Str
  createdAt : Int
deriving DecidableEq

structure Certificate where
  id : Str
  name : Str
  domains : List Str
  certPath : Str
  keyPath : Str
  chainPath : Str
  ctype : Str
  expiresAt : Int
  autoRenew : Bool
  tags : List Str
  createdAt : Int
  updatedAt : Int
deriving DecidableEq

/-- State of a `CertificateManager`: certificate and tag maps, their two
persisted JSON files, and the certificate files on disk (as a set of paths). -/
structure CertSys where
  certs : List Certificate
  tags : List Tag
  certsData : List Certificate
  tagsData : List Tag
  files : List Str
deriving DecidableEq

/-- `CertificateManager.save`: persist both maps. -/
def saveCertSys (cs : CertSys) : CertSys :=
  { cs with certsData := cs.certs, tagsData := cs.tags }

def removeFile (files : List Str) (p : Str) : List Str :=
  files.filter (fun f => decide (f ≠ p))

/-- `CertificateManager.DeleteCertificate`: look up by id, remove the three
optional files, delete the map entry, persist.  No host-reference check. -/
def deleteCertificate (cs : CertSys) (id : Str) : CertSys × MutOut :=
  match cs.certs.find? (fun c => decide (c.id = id)) with
  | none => (cs, .err "certificate not found".data)
  | some cert =>
    let f1 := if cert.certPath ≠ [] then removeFile cs.files cert.certPath else cs.files
    let f2 := if cert.keyPath ≠ [] then removeFile f1 cert.keyPath else f1
    let f3 := if cert.chainPath ≠ [] then removeFile f2 cert.chainPath else f2
    let cs1 := { cs with
      files := f3,
      certs := cs.certs.filter (fun c => decide (c.id ≠ id)) }
    (saveCertSys cs1, .ok)

/-- `CertificateManager.DeleteTag`: fail when unknown, else delete the tag
entity and persist.  Host and certificate tag lists are not touched. -/
def deleteTag (cs : CertSys) (id : Str) : CertSys × MutOut :=
  if cs.tags.any (fun t => decide (t.id = id)) then
    (saveCertSys { cs with tags := cs.tags.filter (fun t => decide (t.id ≠ id)) }, .ok)
  else (cs, .err "tag not found".data)

/-- `handleDeleteTag` touches only the certificate manager; the proxy-host
store is passed through untouched. -/
def handleDeleteTag (s : Sys) (cs : CertSys) (id : Str) : Sys × CertSys × MutOut :=
  (s, deleteTag cs id)

/-- `handleDeleteCertificate` likewise never consults the proxy-host store. -/
def handleDeleteCertificate (s : Sys) (cs : CertSys) (id : Str) : Sys × CertSys × MutOut :=
  (s, deleteCertificate cs id)

/-! ## Auto-renew scan — api/letsencrypt.go `handleCheckAutoRenew` -/

structure RenewalItem where
  id : Str
  name : Str
  domains : List Str
  expiresAt : Int
  daysUntilExpiry : Int
deriving DecidableEq

def nsPerDay : Int := 86400 * 1000000000

/-- `int(expiresAt.Sub(now).Hours() / 24)`: days until expiry, truncated
toward zero (Go float-to-int conversion), modelled as exact integer
T-division of the nanosecond duration. -/
def goDaysUntil (now expiresAt : Int) : Int := Int.tdiv (expiresAt - now) nsPerDay

def renewalEntry (now : Int) (c : Certificate) : RenewalItem :=
  ⟨c.id, c.name, c.domains, c.expiresAt, goDaysUntil now c.expiresAt⟩

/-- The `needsRenewal` list assembled by `handleCheckAutoRenew`: skip
certificates without `autoRenew` or whose type is not `letsencrypt`, then
keep those with fewer than 30 (truncated) days until expiry.  The handler
only reads the store. -/
def checkAutoRenew (certs : List Certificate) (now : Int) : List RenewalItem :=
  certs.foldl (fun acc c =>
    if !c.autoRenew || c.ctype ≠ "letsencrypt".data then acc
    else if goDaysUntil now c.expiresAt < 30 then acc ++ [renewalEntry now c]
    else acc) []

/-! ## Spec-side predicates for claim C7 (the source has no such checks;
these transcribe the specification text they are compared against). -/

def isDigitChar (c : Char) : Bool := '0' ≤ c && c ≤ '9'

def digitsToNat (s : Str) : Nat :=
  s.foldl (fun acc c => acc * 10 + (c.toNat - '0'.toNat)) 0

/-- Modelled from the spec: "each `address` parses as `host:port` with
`1 ≤ port ≤ 65535`" — split at the last colon, require a nonempty host, an
all-digit port, and the port range. -/
def specAddrOk (a : Str) : Bool :=
  let revPort := a.reverse.takeWhile (fun c => decide (c ≠ ':'))
  if revPort.length = a.length then false
  else
    let port := revPort.reverse
    let host := a.take (a.length - revPort.length - 1)
    !host.isEmpty && !port.isEmpty && port.all isDigitChar &&
      decide (1 ≤ digitsToNat port) && decide (digitsToNat port ≤ 65535)

/-- Modelled from the spec: "policy is one of the three enumerated values". -/
def specPolicyOk (m : Str) : Bool :=
  m = "round_robin".data || m = "least_conn".data || m = "ip_hash".data

/-- Modelled from the spec: the load-balanced-mode validation rule of §4.4. -/
def specLBValid (h : ProxyHost) : Bool :=
  !h.backends.isEmpty && h.backends.all (fun b => specAddrOk b.address) &&
    specPolicyOk h.lbMethod

/-! ## Reachability by accepted mutations (for the domain-uniqueness claim) -/

/-- States reachable from the empty store by accepted Create and Update
operations (the import loop performs only these two mutations). -/
inductive Reachable : Sys → Prop where
  | init : Reachable emptySys
  | create {s s1 : Sys} (req : ProxyHost) (newId : Str) (now : Int) :
      Reachable s → createHost s req newId now = (s1, .ok) → Reachable s1
  | update {s s1 : Sys} (id : Str) (updates : ProxyHost) (now : Int) :
      Reachable s → updateHost s id updates now = (s1, .ok) → Reachable s1

/-! ## Formalized claim statements used for refutations -/

/-- Claim C1 as stated: whatever external notion `valid` of nginx fragment
validity is taken, if the fragment produced by an update would fail it, the
handler leaves the disk and the store unchanged, reports an error, and does
not reload. -/
def rollbackClaim : Prop :=
  ∀ (valid : Str → Bool) (s : Sys) (id : Str) (req : ProxyHost) (now : Int)
    (reloadOk : Bool) (host : ProxyHost),
    s.hosts.find? (fun h => decide (h.id = id)) = some host →
    valid (renderProxyHost (mergeUpdate host req now)) = false →
    (handleUpdateHost s id req now reloadOk).sys.avail = s.avail ∧
    (handleUpdateHost s id req now reloadOk).sys.hosts = s.hosts ∧
    (handleUpdateHost s id req now reloadOk).resp ≠ HostResponse.ok ∧
    (handleUpdateHost s id req now reloadOk).reloadCalled = false

/-- Claim C7 as stated: in load-balanced mode, creation is rejected with no
side effects unless the spec-side backend/policy validation passes. -/
def lbValidationClaim : Prop :=
  ∀ (s : Sys) (req : ProxyHost) (newId : Str) (now : Int),
    ¬ req.backends.isEmpty → specLBValid req = false →
    (createHost s req newId now).1 = s ∧ (createHost s req newId now).2 ≠ .ok

/-- Claim C4 as stated: overwrite-importing the export leaves the store
bitwise equal modulo `updatedAt`. -/
def importIdempotenceClaim : Prop :=
  ∀ (s : Sys) (gen : Nat → Str) (now : Int),
    (s.hosts.map (fun h => h.id)).Nodup →
    (s.hosts.map (fun h => h.domain)).Nodup →
    (handleImportHosts s (exportHosts s) true gen now).sys.hosts.map clrUpdatedAt
      = s.hosts.map clrUpdatedAt

/-- Claim C5 as stated: after a successful tag deletion no certificate (and no
host, which the handler does not even receive) retains the tag id. -/
def tagScrubClaim : Prop :=
  ∀ (s : Sys) (cs : CertSys) (id : Str),
    (handleDeleteTag s cs id).2.2 = .ok →
    (∀ c ∈ (handleDeleteTag s cs id).2.1.certs, id ∉ c.tags) ∧
    (∀ h ∈ (handleDeleteTag s cs id).1.hosts, id ∉ h.tags)

/-- Claim C6 as stated: deleting a certificate some host references fails and
changes nothing. -/
def certRefIntegrityClaim : Prop :=
  ∀ (s : Sys) (cs : CertSys) (id : Str),
    (∃ h ∈ s.hosts, h.certificateId = id) →
    (handleDeleteCertificate s cs id).2.2 ≠ .ok ∧
    (handleDeleteCertificate s cs id).2.1 = cs

/-- Claim C9's per-item clause as stated: every reported certificate that is
already expired carries a negative `daysUntilExpiry`. -/
def renewalNegativeClaim : Prop :=
  ∀ (certs : List Certificate) (now : Int),
    ∀ item ∈ checkAutoRenew certs now, item.expiresAt < now → item.daysUntilExpiry < 0

/-- Claim C2 as stated: every rendered fragment of a TLS-enabled host with a
bound certificate holds active `ssl_certificate` / `ssl_certificate_key`
directives referencing the host's `certPath` and `keyPath`. -/
def tlsBlockClaim : Prop :=
  ∀ h : ProxyHost, h.ssl = true → h.certificateId ≠ [] →
    hasActiveDirective (renderProxyHost h) "ssl_certificate".data h.certPath = true ∧
    hasActiveDirective (renderProxyHost h) "ssl_certificate_key".data h.keyPath = true

/-- Claim C10 as stated: for every existing host id, `ApplyCertificate`
persists the mutated store to the data file and then ends in the
`writeConfig` panic. -/
def applyPersistsThenPanicsClaim : Prop :=
  ∀ (s : Sys) (hostID certID cp kp : Str) (now : Int) (host : ProxyHost),
    s.hosts.find? (fun x => decide (x.id = hostID)) = some host →
    (applyCertificate s hostID certID cp kp now).1.dataFile
      = replaceById s.hosts hostID (applyCertForm host certID cp kp now) ∧
    (applyCertificate s hostID certID cp kp now).2
      = ApplyOut.panicked "unimplemented".data

/-! ## Concrete inputs for witnesses and counterexamples -/

/-- The host of scenario S1 (api.example.com, plain HTTP, websocket). -/
def hostS1 : ProxyHost :=
  { id := "b6d1f00c-0000-4000-8000-000000000001".data,
    domain := "api.example.com".data, target := "http://127.0.0.1:3000".data,
    backends := [], lbMethod := [], ssl := false, forceSSL := false,
    certificateId := [], certPath := [], keyPath := [],
    enabled := true, maintenance := false, websocket := true,
    customNginx := [], tags := [], createdAt := 1, updatedAt := 1 }

/-- System state at the end of scenario S1. -/
def sysS1 : Sys :=
  { hosts := [hostS1], dataFile := [hostS1],
    avail := [(configFileName hostS1.domain, renderProxyHost hostS1)],
    enabledLinks := [symlinkFileName hostS1.domain] }

/-- The S2 update request: same host, broken custom nginx block. -/
def reqS2 : ProxyHost :=
  { hostS1 with
    id := [], customNginx := "this is not nginx syntax ;;;".data,
    createdAt := 0, updatedAt := 0 }

/-- A TLS-enabled host with a bound certificate (for claim C2). -/
def hostC2 : ProxyHost :=
  { hostS1 with
    ssl := true,
    certificateId := "3f0a0d8e-0000-4000-8000-0000000000aa".data,
    certPath := "/var/lib/nubi/certs/3f0a0d8e.crt".data,
    keyPath := "/var/lib/nubi/certs/3f0a0d8e.key".data }

/-- A host carrying a tag and a certificate binding (for claims C4/C5/C6). -/
def hostC4 : ProxyHost :=
  { hostS1 with
    tags := ["t1".data], certificateId := "c1".data,
    certPath := "/var/lib/nubi/certs/c1.crt".data,
    keyPath := "/var/lib/nubi/certs/c1.key".data }

def sysC4 : Sys :=
  { hosts := [hostC4], dataFile := [hostC4],
    avail := [(configFileName hostC4.domain, renderProxyHost hostC4)],
    enabledLinks := [symlinkFileName hostC4.domain] }

def genC4 : Nat → Str := fun _ => "fresh-id".data

/-- A certificate tagged `t1`, of letsencrypt provenance (for C5/C6). -/
def certC1 : Certificate :=
  { id := "c1".data, name := "example cert".data,
    domains := ["api.example.com".data],
    certPath := "/var/lib/nubi/certs/c1.crt".data,
    keyPath := "/var/lib/nubi/certs/c1.key".data, chainPath := [],
    ctype := "letsencrypt".data, expiresAt := 100, autoRenew := true,
    tags := ["t1".data], createdAt := 1, updatedAt := 1 }

def tagT1 : Tag := { id := "t1".data, name := "prod".data, color := "#ff0000".data, createdAt := 1 }

def certSysC5 : CertSys :=
  { certs := [certC1], tags := [tagT1], certsData := [certC1], tagsData := [tagT1],
    files := [certC1.certPath, certC1.keyPath] }

/-- Create request with one malformed backend and an unknown policy (C7). -/
def reqC7 : ProxyHost :=
  { id := [], domain := "lb.example.com".data, target := [],
    backends := [{ address := "not-an-address".data, weight := 0, backup := false }],
    lbMethod := "bogus".data, ssl := false, forceSSL := false,
    certificateId := [], certPath := [], keyPath := [],
    enabled := true, maintenance := false, websocket := false,
    customNginx := [], tags := [], createdAt := 0, updatedAt := 0 }

/-- A letsencrypt certificate that expired twelve hours ago (C9). -/
def certC9 : Certificate :=
  { certC1 with
    id := "c9".data, tags := [], expiresAt := -43200000000000 }

/-- Create request for the domain-uniqueness witness. -/
def reqC3 : ProxyHost :=
  { hostS1 with
    id := [], createdAt := 0, updatedAt := 0 }

/-- The state produced by creating `reqC3` in the empty store. -/
def sysC3 : Sys := (createHost emptySys reqC3 "h1".data 1).1

/-- The state produced by applying the S2 update to the S1 state. -/
def sysS2 : Sys := (updateHost sysS1 hostS1.id reqS2 5).1

/-! # Theorems -/

/-! ## Generic list helpers -/

theorem find?_append_of_none {α : Type} (p : α → Bool) (l1 l2 : List α)
    (h : ∀ x ∈ l1, p x = false) : (l1 ++ l2).find? p = l2.find? p := by
  induction l1 with
  | nil => rfl
  | cons a t ih =>
    have ha : p a = false := h a (List.mem_cons_self a t)
    simp only [List.cons_append, List.find?, ha]
    exact ih (fun x hx => h x (List.mem_cons_of_mem a hx))

theorem strStartsWith_append_self (p t : Str) : strStartsWith p (p ++ t) = true := by
  induction p with
  | nil => rfl
  | cons c cs ih => simp [strStartsWith, ih]

/-! ## Claim C8 — filename derivation: purity and injectivity -/

theorem splitOnChar_ne_nil (sep : Char) (d : Str) : splitOnChar sep d ≠ [] := by
  cases d with
  | nil => simp [splitOnChar]
  | cons c rest =>
    by_cases h : c = sep
    · simp [splitOnChar, h]
    · simp only [splitOnChar, h, if_false]
      cases splitOnChar sep rest with
      | nil => simp
      | cons l ls => simp

theorem mem_splitOnChar (sep : Char) (d : Str) (c : Char) (hc : c ∈ d) :
    c = sep ∨ ∃ l ∈ splitOnChar sep d, c ∈ l := by
  induction d with
  | nil => cases hc
  | cons a rest ih =>
    by_cases ha : a = sep
    · rcases List.mem_cons.mp hc with h | h
      · left; rw [h, ha]
      · rcases ih h with h1 | ⟨l, hl, hcl⟩
        · exact Or.inl h1
        · exact Or.inr ⟨l, by simp [splitOnChar, ha, hl], hcl⟩
    · have hne := splitOnChar_ne_nil sep rest
      rcases hrest : splitOnChar sep rest with _ | ⟨l0, ls⟩
      · exact absurd hrest hne
      · rcases List.mem_cons.mp hc with h | h
        · exact Or.inr ⟨a :: l0, by simp [splitOnChar, ha, hrest], by simp [h]⟩
        · rcases ih h with h1 | ⟨l, hl, hcl⟩
          · exact Or.inl h1
          · rw [hrest] at hl
            rcases List.mem_cons.mp hl with h2 | h2
            · exact Or.inr ⟨a :: l0, by simp [splitOnChar, ha, hrest],
                List.mem_cons_of_mem a (h2 ▸ hcl)⟩
            · exact Or.inr ⟨l, by simp [splitOnChar, ha, hrest, h2], hcl⟩

theorem labelOk_chars (l : Str) (h : labelOk l = true) :
    ∀ c ∈ l, isAlnumHyphen c = true := by
  cases l with
  | nil => cases h
  | cons a t =>
    simp only [labelOk, Bool.and_eq_true] at h
    intro c hc
    rcases List.mem_cons.mp hc with h1 | h1
    · rw [h1]; exact Bool.or_eq_true_iff.mpr (Or.inl h.1.1)
    · exact List.all_eq_true.mp h.1.2 c h1

theorem domainRegexOk_chars (d : Str) (h : domainRegexOk d = true) :
    ∀ c ∈ d, isAlnumHyphen c = true ∨ c = '.' := by
  intro c hc
  rcases mem_splitOnChar '.' d c hc with h1 | ⟨l, hl, hcl⟩
  · exact Or.inr h1
  · exact Or.inl (labelOk_chars l (List.all_eq_true.mp h l hl) c hcl)

theorem domainRegexOk_head (c : Char) (rest : Str)
    (h : domainRegexOk (c :: rest) = true) : isAlnumChar c = true := by
  by_cases hc : c = '.'
  · exfalso
    have : labelOk [] = true := by
      have := List.all_eq_true.mp h
      exact this [] (by simp [splitOnChar, hc])
    cases this
  · have hne := splitOnChar_ne_nil '.' rest
    rcases hrest : splitOnChar '.' rest with _ | ⟨l0, ls⟩
    · exact absurd hrest hne
    · have hmem : (c :: l0) ∈ splitOnChar '.' (c :: rest) := by
        simp [splitOnChar, hc, hrest]
      have hlab := List.all_eq_true.mp h _ hmem
      simp only [labelOk, Bool.and_eq_true] at hlab
      exact hlab.1.1

theorem alnumHyphen_ne_special (c : Char) (h : isAlnumHyphen c = true) :
    c ≠ '_' ∧ c ≠ '*' := by
  constructor <;> intro heq <;> rw [heq] at h <;> cases h

theorem alnum_ne_special (c : Char) (h : isAlnumChar c = true) :
    c ≠ '_' ∧ c ≠ '.' := by
  constructor <;> intro heq <;> rw [heq] at h <;> cases h

theorem domainRegexOk_no_underscore (d : Str) (h : domainRegexOk d = true) :
    ∀ c ∈ d, c ≠ '_' ∧ c ≠ '*' := by
  intro c hc
  rcases domainRegexOk_chars d h c hc with h1 | h1
  · exact alnumHyphen_ne_special c h1
  · rw [h1]; exact ⟨by decide, by decide⟩

theorem replaceStar_of_no_star (d : Str) (h : ∀ c ∈ d, c ≠ '*') :
    replaceStar d = d := by
  induction d with
  | nil => rfl
  | cons c cs ih =>
    have hc : c ≠ '*' := h c (List.mem_cons_self c cs)
    simp only [replaceStar, hc, if_false]
    rw [ih (fun x hx => h x (List.mem_cons_of_mem c hx))]
    rfl

theorem map_undot_dot (d : Str) (h : ∀ c ∈ d, c ≠ '_') :
    (d.map dotRepl).map undotRepl = d := by
  rw [List.map_map]
  have : ∀ c ∈ d, (undotRepl ∘ dotRepl) c = id c := by
    intro c hc
    simp only [Function.comp, dotRepl, undotRepl, id]
    by_cases h1 : c = '.'
    · simp [h1]
    · simp [h1, h c hc]
  rw [List.map_congr_left this, List.map_id]

theorem wildcard_data_eq : "_wildcard_".data = ['_','w','i','l','d','c','a','r','d','_'] := rfl

theorem unmangle_mangle_plain (d : Str) (hne : d ≠ [])
    (hhead : isAlnumChar (d.headI) = true)
    (hch : ∀ c ∈ d, c ≠ '_' ∧ c ≠ '*') :
    unmangleDomain (mangleDomain d) = d := by
  rcases d with _ | ⟨c0, rest⟩
  · exact absurd rfl hne
  · have hc0 : c0 ≠ '_' ∧ c0 ≠ '*' := hch c0 (List.mem_cons_self c0 rest)
    have hstar : replaceStar (c0 :: rest) = c0 :: rest :=
      replaceStar_of_no_star _ (fun c hc => (hch c hc).2)
    have hmangle : mangleDomain (c0 :: rest) = (c0 :: rest).map dotRepl := by
      simp only [mangleDomain, hstar]
    have hd0 : dotRepl c0 = c0 := by
      simp only [dotRepl]
      have : c0 ≠ '.' := (alnum_ne_special c0 (by simpa using hhead)).2
      simp [this]
    have hnotwild : strStartsWith "_wildcard_".data (mangleDomain (c0 :: rest)) = false := by
      rw [hmangle, wildcard_data_eq]
      simp only [List.map_cons, hd0, strStartsWith]
      have : ('_' = c0) = False := by
        simp [eq_comm, hc0.1]
      simp [this]
    simp only [unmangleDomain, hnotwild, Bool.false_eq_true, if_false]
    rw [hmangle, map_undot_dot _ (fun c hc => (hch c hc).1)]

theorem mangle_wildcard (rest : Str) (h : ∀ c ∈ rest, c ≠ '*') :
    mangleDomain ('*' :: '.' :: rest) = "_wildcard_".data ++ '_' :: rest.map dotRepl := by
  have h1 : replaceStar ('*' :: '.' :: rest) = "_wildcard_".data ++ '.' :: rest := by
    simp only [replaceStar]
    rw [replaceStar_of_no_star rest h]
    rfl
  simp only [mangleDomain, h1, List.map_append, List.map_cons]
  rfl

theorem unmangle_mangle_wildcard (rest : Str)
    (hch : ∀ c ∈ rest, c ≠ '_' ∧ c ≠ '*') :
    unmangleDomain (mangleDomain ('*' :: '.' :: rest)) = '*' :: '.' :: rest := by
  rw [mangle_wildcard rest (fun c hc => (hch c hc).2)]
  have hsw := strStartsWith_append_self "_wildcard_".data ('_' :: rest.map dotRepl)
  simp only [unmangleDomain, hsw, if_true]
  have hdrop : ("_wildcard_".data ++ '_' :: rest.map dotRepl).drop 10
      = '_' :: rest.map dotRepl := by
    have h10 : ("_wildcard_".data).length = 10 := rfl
    rw [← h10]
    exact List.drop_left _ _
  rw [hdrop]
  have : ('_' :: rest.map dotRepl).map undotRepl
      = '.' :: (rest.map dotRepl).map undotRepl := by
    simp [undotRepl]
  rw [this, map_undot_dot rest (fun c hc => (hch c hc).1)]

theorem unmangle_mangle (d : Str) (h : validateDomain d = true) :
    unmangleDomain (mangleDomain d) = d := by
  simp only [validateDomain, Bool.and_eq_true] at h
  obtain ⟨hne, hreg⟩ := h
  have hdne : d ≠ [] := by
    intro heq; rw [heq] at hne; cases hne
  rcases d with _ | ⟨c0, rest0⟩
  · exact absurd rfl hdne
  · by_cases hc0 : c0 = '*'
    · subst hc0
      rcases rest0 with _ | ⟨c1, rest1⟩
      · exfalso
        have : domainRegexOk ['*'] = true := hreg
        cases this
      · by_cases hc1 : c1 = '.'
        · subst hc1
          have hstrip : stripWildcard ('*' :: '.' :: rest1) = rest1 := rfl
          rw [hstrip] at hreg
          exact unmangle_mangle_wildcard rest1 (domainRegexOk_no_underscore rest1 hreg)
        · exfalso
          have hstrip : stripWildcard ('*' :: c1 :: rest1) = '*' :: c1 :: rest1 := by
            unfold stripWildcard
            split
            · rename_i heq
              injection heq with h1 h2
              injection h2 with h2a
              exact absurd h2a hc1
            · rfl
          rw [hstrip] at hreg
          have := domainRegexOk_head '*' (c1 :: rest1) hreg
          cases this
    · have hstrip : stripWildcard (c0 :: rest0) = c0 :: rest0 := by
        unfold stripWildcard
        split
        · rename_i heq
          injection heq with h1
          exact absurd h1 hc0
        · rfl
      rw [hstrip] at hreg
      exact unmangle_mangle_plain (c0 :: rest0) (by simp)
        (by simpa using domainRegexOk_head c0 rest0 hreg)
        (domainRegexOk_no_underscore _ hreg)

/-- C8: the config filename is a pure function of the domain (the derivation
`configFileName` takes only the domain), the enabled-symlink name uses the
identical derivation, and the derivation is injective over domains accepted
by `validateDomain`. -/
theorem configFileName_pure_injective (d1 d2 : Str)
    (h1 : validateDomain d1 = true) (h2 : validateDomain d2 = true) :
    (configFileName d1 = configFileName d2 ↔ d1 = d2) ∧
    symlinkFileName d1 = configFileName d1 := by
  refine ⟨⟨fun heq => ?_, fun heq => by rw [heq]⟩, rfl⟩
  have hm : mangleDomain d1 = mangleDomain d2 := by
    simp only [configFileName] at heq
    exact List.append_cancel_left (List.append_cancel_right heq)
  calc d1 = unmangleDomain (mangleDomain d1) := (unmangle_mangle d1 h1).symm
    _ = unmangleDomain (mangleDomain d2) := by rw [hm]
    _ = d2 := unmangle_mangle d2 h2

/-- C8 witness: the derivation distinguishes a wildcard domain from its base
domain, both of which pass validation. -/
theorem configFileName_pure_injective_witness :
    validateDomain "*.app.example.com".data = true ∧
    validateDomain "app.example.com".data = true ∧
    configFileName "*.app.example.com".data ≠ configFileName "app.example.com".data := by
  refine ⟨by decide, by decide, fun heq => ?_⟩
  have h := configFileName_pure_injective "*.app.example.com".data "app.example.com".data
    (by decide) (by decide)
  exact absurd (h.1.mp heq) (by decide)

/-! ## Claim C3 — domain uniqueness under accepted Create/Update sequences -/

theorem replaceById_eq_self (l : List ProxyHost) (i : Str) (v : ProxyHost)
    (h : ∀ x ∈ l, x.id ≠ i) : replaceById l i v = l := by
  unfold replaceById
  have : ∀ x ∈ l, (if x.id = i then v else x) = id x := by
    intro x hx
    simp [h x hx]
  rw [List.map_congr_left this, List.map_id]

theorem replaceById_map_id (l : List ProxyHost) (i : Str) (v : ProxyHost)
    (hv : v.id = i) :
    (replaceById l i v).map (fun x => x.id) = l.map (fun x => x.id) := by
  unfold replaceById
  rw [List.map_map]
  apply List.map_congr_left
  intro x _
  by_cases hx : x.id = i
  · simp [Function.comp, hx, hv]
  · simp [Function.comp, hx]

theorem mem_replaceById (l : List ProxyHost) (i : Str) (v x : ProxyHost)
    (hx : x ∈ replaceById l i v) : x = v ∨ (x ∈ l ∧ x.id ≠ i) := by
  unfold replaceById at hx
  rcases List.mem_map.mp hx with ⟨a, ha, heq⟩
  by_cases hai : a.id = i
  · left; rw [← heq]; simp [hai]
  · right
    have : x = a := by rw [← heq]; simp [hai]
    rw [this]; exact ⟨ha, hai⟩

theorem nodup_domains_replaceById (l : List ProxyHost) (i : Str) (v : ProxyHost)
    (hids : (l.map (fun x => x.id)).Nodup)
    (hdoms : (l.map (fun x => x.domain)).Nodup)
    (hv : ∀ x ∈ l, x.id ≠ i → x.domain ≠ v.domain) :
    ((replaceById l i v).map (fun x => x.domain)).Nodup := by
  induction l with
  | nil => exact List.nodup_nil
  | cons a t ih =>
    have hids' : (∀ x ∈ t, ¬x.id = a.id) ∧ (t.map (fun x => x.id)).Nodup := by
      simpa using hids
    have hdoms' : (∀ x ∈ t, ¬x.domain = a.domain) ∧ (t.map (fun x => x.domain)).Nodup := by
      simpa using hdoms
    have hrep : replaceById (a :: t) i v
        = (if a.id = i then v else a) :: replaceById t i v := by
      simp [replaceById]
    rw [hrep]
    by_cases ha : a.id = i
    · have htid : ∀ x ∈ t, x.id ≠ i := by
        intro x hx heq
        exact hids'.1 x hx (heq.trans ha.symm)
      rw [replaceById_eq_self t i v htid]
      simp only [ha, if_true, List.map_cons]
      rw [List.nodup_cons]
      constructor
      · intro hmem
        rcases List.mem_map.mp hmem with ⟨x, hx, heq⟩
        exact hv x (List.mem_cons_of_mem a hx) (htid x hx) heq
      · exact hdoms'.2
    · simp only [ha, if_false, List.map_cons]
      rw [List.nodup_cons]
      constructor
      · intro hmem
        rcases List.mem_map.mp hmem with ⟨x, hx, heq⟩
        rcases mem_replaceById t i v x hx with h1 | ⟨h1, h2⟩
        · exact hv a (List.mem_cons_self a t) ha (by rw [← heq, h1])
        · exact hdoms'.1 x h1 heq
      · exact ih hids'.2 hdoms'.2
          (fun x hx => hv x (List.mem_cons_of_mem a hx))

theorem nodup_map_append_singleton {β : Type} (l : List ProxyHost)
    (h : ProxyHost) (f : ProxyHost → β)
    (hl : (l.map f).Nodup) (hnew : ∀ x ∈ l, f x ≠ f h) :
    ((l ++ [h]).map f).Nodup := by
  rw [List.map_append]
  rw [List.nodup_append]
  refine ⟨hl, List.nodup_singleton _, ?_⟩
  intro a ha
  rcases List.mem_map.mp ha with ⟨x, hx, heq⟩
  simp only [List.map_cons, List.map_nil, List.mem_singleton]
  rw [← heq]
  exact hnew x hx

theorem hosts_writeNginxConfig (s : Sys) (h : ProxyHost) :
    (writeNginxConfig s h).hosts = s.hosts := rfl

theorem hosts_saveSys (s : Sys) : (saveSys s).hosts = s.hosts := rfl

theorem hosts_update_pipeline (x : Sys) (host1 : ProxyHost) (d : Str)
    (c : Prop) [Decidable c] :
    (saveSys (writeNginxConfig (if c then removeNginxConfig x d else x) host1)).hosts
      = x.hosts := by
  split <;> rfl

theorem createHost_inv (s s1 : Sys) (req : ProxyHost) (newId : Str) (now : Int)
    (h : createHost s req newId now = (s1, .ok))
    (hids : (s.hosts.map (fun x => x.id)).Nodup)
    (hdoms : (s.hosts.map (fun x => x.domain)).Nodup) :
    (s1.hosts.map (fun x => x.id)).Nodup ∧
    (s1.hosts.map (fun x => x.domain)).Nodup := by
  unfold createHost at h
  split at h
  · simp at h
  · split at h
    · simp at h
    · split at h
      · simp at h
      · rename_i hdup
        rw [Prod.mk.injEq] at h
        obtain ⟨h1, -⟩ := h
        have hnotdup : ∀ x ∈ s.hosts, x.domain ≠ req.domain := by
          intro x hx heq
          exact hdup (by
            apply List.any_eq_true.mpr
            exact ⟨x, hx, decide_eq_true heq⟩)
        have hhosts : s1.hosts
            = insertHost s.hosts { req with id := newId, createdAt := now, updatedAt := now } := by
          rw [← h1]
          rfl
        rw [hhosts]
        unfold insertHost
        split
        · rename_i hany
          constructor
          · rw [replaceById_map_id _ _ _ rfl]
            exact hids
          · exact nodup_domains_replaceById _ _ _ hids hdoms
              (fun x hx _ => hnotdup x hx)
        · constructor
          · rename_i hany
            apply nodup_map_append_singleton _ _ _ hids
            intro x hx heq
            exact hany (List.any_eq_true.mpr ⟨x, hx, decide_eq_true heq⟩)
          · exact nodup_map_append_singleton _ _ _ hdoms
              (fun x hx => hnotdup x hx)

theorem updateHost_inv (s s1 : Sys) (id : Str) (upd : ProxyHost) (now : Int)
    (h : updateHost s id upd now = (s1, .ok))
    (hids : (s.hosts.map (fun x => x.id)).Nodup)
    (hdoms : (s.hosts.map (fun x => x.domain)).Nodup) :
    (s1.hosts.map (fun x => x.id)).Nodup ∧
    (s1.hosts.map (fun x => x.domain)).Nodup := by
  unfold updateHost at h
  split at h
  · simp at h
  · rename_i host hfind
    split at h
    · simp at h
    · rename_i hcond
      rw [Prod.mk.injEq] at h
      obtain ⟨h1, -⟩ := h
      have hp := List.find?_some hfind
      have hhostid : host.id = id := by simpa using hp
      have hhostmem : host ∈ s.hosts := List.mem_of_find?_eq_some hfind
      have hhosts : s1.hosts = replaceById s.hosts id (mergeUpdate host upd now) := by
        rw [← h1]
        exact hosts_update_pipeline _ _ _ _
      have hmergeid : (mergeUpdate host upd now).id = host.id := rfl
      have hmergedom : (mergeUpdate host upd now).domain = upd.domain := rfl
      have hv : ∀ x ∈ s.hosts, x.id ≠ id → x.domain ≠ (mergeUpdate host upd now).domain := by
        rw [hmergedom]
        by_cases hdc : upd.domain = host.domain
        · intro x hx hxid heq
          have hxh : x = host :=
            List.inj_on_of_nodup_map hdoms hx hhostmem (by rw [heq, hdc])
          exact hxid (by rw [hxh, hhostid])
        · intro x hx hxid heq
          apply hcond
          refine ⟨fun hd => hdc hd, ?_⟩
          apply List.any_eq_true.mpr
          exact ⟨x, hx, by
            rw [Bool.and_eq_true]
            exact ⟨decide_eq_true hxid, decide_eq_true heq⟩⟩
      rw [hhosts]
      constructor
      · rw [replaceById_map_id _ _ _ (hmergeid.trans hhostid)]
        exact hids
      · exact nodup_domains_replaceById _ _ _ hids hdoms hv

theorem reachable_nodup (s : Sys) (h : Reachable s) :
    (s.hosts.map (fun x => x.id)).Nodup ∧
    (s.hosts.map (fun x => x.domain)).Nodup := by
  induction h with
  | init => exact ⟨List.nodup_nil, List.nodup_nil⟩
  | create req newId now _ heq ih =>
    exact createHost_inv _ _ req newId now heq ih.1 ih.2
  | update id upd now _ heq ih =>
    exact updateHost_inv _ _ id upd now heq ih.1 ih.2

/-- C3: every store reachable from the empty store by accepted Create and
Update operations (the only mutations the import path performs) has pairwise
distinct domains. -/
theorem domain_uniqueness (s : Sys) (h : Reachable s) :
    (s.hosts.map (fun x => x.domain)).Nodup :=
  (reachable_nodup s h).2

/-- C3 witness: a concrete accepted creation from the empty store, and the
uniqueness of the resulting domains. -/
theorem domain_uniqueness_witness :
    Reachable sysC3 ∧ (sysC3.hosts.map (fun x => x.domain)).Nodup := by
  have hcr : createHost emptySys reqC3 "h1".data 1 = (sysC3, .ok) :=
    Prod.ext rfl (by decide)
  have hr : Reachable sysC3 := Reachable.create reqC3 "h1".data 1 Reachable.init hcr
  exact ⟨hr, domain_uniqueness sysC3 hr⟩

/-! ## Claim C4 — import of the export under overwrite -/

theorem importedForm_id (now : Int) (h : ProxyHost) : (importedForm now h).id = h.id := rfl

theorem importedForm_domain (now : Int) (h : ProxyHost) :
    (importedForm now h).domain = h.domain := rfl

theorem mergeUpdate_importScrub (h : ProxyHost) (now : Int) :
    mergeUpdate h (importScrub h) now = importedForm now h := rfl

theorem updateHost_samedomain (s : Sys) (id : Str) (upd : ProxyHost) (now : Int)
    (host : ProxyHost)
    (hfind : s.hosts.find? (fun x => decide (x.id = id)) = some host)
    (hdom : upd.domain = host.domain) :
    (updateHost s id upd now).2 = .ok ∧
    (updateHost s id upd now).1.hosts = replaceById s.hosts id (mergeUpdate host upd now) := by
  have hneg : ¬(upd.domain ≠ host.domain ∧
      (s.hosts.any fun h => decide (h.id ≠ id) && decide (h.domain = upd.domain)) = true) :=
    fun hab => hab.1 hdom
  constructor
  · simp only [updateHost, hfind]
    rw [if_neg hneg]
  · simp only [updateHost, hfind]
    rw [if_neg hneg]
    exact hosts_update_pipeline _ _ _ _

theorem replaceById_append (l1 l2 : List ProxyHost) (i : Str) (v : ProxyHost) :
    replaceById (l1 ++ l2) i v = replaceById l1 i v ++ replaceById l2 i v := by
  simp [replaceById]

theorem replaceById_cons (a : ProxyHost) (l : List ProxyHost) (i : Str) (v : ProxyHost) :
    replaceById (a :: l) i v = (if a.id = i then v else a) :: replaceById l i v := by
  simp [replaceById]

theorem import_fold (gen : Nat → Str) (now : Int) :
    ∀ (todo done : List ProxyHost) (st : ImportState),
    ((done ++ todo).map (fun x => x.id)).Nodup →
    ((done ++ todo).map (fun x => x.domain)).Nodup →
    st.sys.hosts = done.map (importedForm now) ++ todo →
    (todo.foldl (importOne true gen now) st).sys.hosts
      = done.map (importedForm now) ++ todo.map (importedForm now) := by
  intro todo
  induction todo with
  | nil =>
    intro done st _ _ hst
    simpa using hst
  | cons h rest ih =>
    intro done st hids hdoms hst
    have hids' := hids
    rw [List.map_append] at hids'
    obtain ⟨-, hids2, hidsDisj⟩ := List.nodup_append.mp hids'
    have hidsA : ∀ y ∈ done, y.id ≠ h.id := by
      intro y hy heq
      exact hidsDisj (List.mem_map.mpr ⟨y, hy, rfl⟩) (by simp [heq])
    rw [List.map_cons, List.nodup_cons] at hids2
    have hidsR : ∀ y ∈ rest, y.id ≠ h.id := by
      intro y hy heq
      exact hids2.1 (List.mem_map.mpr ⟨y, hy, heq⟩)
    have hdoms' := hdoms
    rw [List.map_append] at hdoms'
    obtain ⟨-, hdoms2, hdomsDisj⟩ := List.nodup_append.mp hdoms'
    have hdomA : ∀ y ∈ done, y.domain ≠ h.domain := by
      intro y hy heq
      exact hdomsDisj (List.mem_map.mpr ⟨y, hy, rfl⟩) (by simp [heq])
    have hfindDom : (done.map (importedForm now) ++ h :: rest).find?
        (fun e => decide (e.domain = h.domain)) = some h := by
      have hnone : ∀ x ∈ done.map (importedForm now),
          (fun e => decide (e.domain = h.domain)) x = false := by
        intro x hx
        rcases List.mem_map.mp hx with ⟨y, hy, rfl⟩
        exact decide_eq_false (hdomA y hy)
      exact (find?_append_of_none _ _ (h :: rest) hnone).trans
        (List.find?_cons_of_pos rest (by simp))
    have hfindId : (done.map (importedForm now) ++ h :: rest).find?
        (fun x => decide (x.id = h.id)) = some h := by
      have hnone : ∀ x ∈ done.map (importedForm now),
          (fun x => decide (x.id = h.id)) x = false := by
        intro x hx
        rcases List.mem_map.mp hx with ⟨y, hy, rfl⟩
        exact decide_eq_false (hidsA y hy)
      exact (find?_append_of_none _ _ (h :: rest) hnone).trans
        (List.find?_cons_of_pos rest (by simp))
    have hupd := updateHost_samedomain st.sys h.id (importScrub h) now h
      (by rw [hst]; exact hfindId) rfl
    have hrepl : replaceById st.sys.hosts h.id (mergeUpdate h (importScrub h) now)
        = done.map (importedForm now) ++ importedForm now h :: rest := by
      rw [hst, mergeUpdate_importScrub, replaceById_append, replaceById_cons]
      rw [replaceById_eq_self _ _ _ (by
        intro x hx
        rcases List.mem_map.mp hx with ⟨y, hy, rfl⟩
        exact hidsA y hy)]
      rw [if_pos rfl, replaceById_eq_self rest _ _ hidsR]
    have hstep : (importOne true gen now st h).sys.hosts
        = done.map (importedForm now) ++ importedForm now h :: rest := by
      rcases hres : updateHost st.sys h.id (importScrub h) now with ⟨s2, out⟩
      rw [hres] at hupd
      have h2 : out = .ok := hupd.1
      subst h2
      have hhosts2 : s2.hosts
          = replaceById st.sys.hosts h.id (mergeUpdate h (importScrub h) now) := hupd.2
      simp only [importOne]
      rw [hst, hfindDom]
      simp only [if_true]
      rw [hres]
      simp only []
      rw [hhosts2, hrepl]
    rw [List.foldl_cons]
    have hids2' : (((done ++ [h]) ++ rest).map (fun x => x.id)).Nodup := by
      simpa [List.append_assoc] using hids
    have hdoms2' : (((done ++ [h]) ++ rest).map (fun x => x.domain)).Nodup := by
      simpa [List.append_assoc] using hdoms
    have hrec := ih (done ++ [h]) (importOne true gen now st h) hids2' hdoms2'
      (by rw [hstep]; simp [List.map_append])
    rw [hrec]
    simp [List.map_append, List.append_assoc]

/-- C4 amended: overwrite-importing the export of a store with unique ids and
domains rewrites every host in place — id, domain, target, backends, lbMethod,
ssl, forceSSL, enabled, maintenance, websocket, customNginx and createdAt are
preserved, while tags, certificateId, certPath and keyPath are cleared and
updatedAt is refreshed. -/
theorem import_export_overwrite (s : Sys) (gen : Nat → Str) (now : Int)
    (hids : (s.hosts.map (fun x => x.id)).Nodup)
    (hdoms : (s.hosts.map (fun x => x.domain)).Nodup) :
    (handleImportHosts s (exportHosts s) true gen now).sys.hosts
      = s.hosts.map (importedForm now) := by
  unfold handleImportHosts exportHosts
  split
  · rename_i hnil
    have hempty : s.hosts = [] := by simpa using hnil
    simp [hempty]
  · have := import_fold gen now s.hosts [] ⟨s, 0, 0, [], 0⟩ (by simpa using hids)
      (by simpa using hdoms) (by simp)
    simpa using this

/-- C4 witness: the amended round trip at a concrete one-host store carrying
a tag and a certificate binding. -/
theorem import_export_overwrite_witness :
    (handleImportHosts sysC4 (exportHosts sysC4) true genC4 7).sys.hosts
      = sysC4.hosts.map (importedForm 7) :=
  import_export_overwrite sysC4 genC4 7 (by decide) (by decide)

/-- C4 counterexample: at the same store the round trip is NOT the identity
modulo `updatedAt` — the certificate binding and tags are lost. -/
theorem import_idempotence_counterexample : ¬ importIdempotenceClaim := by
  intro hcl
  have h := hcl sysC4 genC4 7 (by decide) (by decide)
  exact absurd h (by decide)

/-! ## Claim C1 — host mutations commit without nginx validation -/

theorem setAvail_cons_ne (p : Str × Str) (t : List (Str × Str)) (n c : Str)
    (hp : p.1 ≠ n) : setAvail (p :: t) n c = p :: setAvail t n c := by
  unfold setAvail
  rw [List.any_cons]
  rw [decide_eq_false hp]
  simp only [Bool.false_or]
  by_cases ht : t.any (fun q => decide (q.1 = n)) = true
  · rw [if_pos ht, if_pos ht]
    simp [hp]
  · rw [if_neg ht, if_neg ht]
    simp

theorem lookupAvail_setAvail (fs : List (Str × Str)) (n c : Str) :
    lookupAvail (setAvail fs n c) n = some c := by
  induction fs with
  | nil => simp [setAvail, lookupAvail]
  | cons p t ih =>
    by_cases hp : p.1 = n
    · unfold setAvail
      have hany : (p :: t).any (fun q => decide (q.1 = n)) = true := by
        simp [List.any_cons, hp]
      rw [if_pos hany]
      simp only [List.map_cons, hp, if_pos]
      simp [lookupAvail]
    · rw [setAvail_cons_ne p t n c hp]
      simp only [lookupAvail] at ih ⊢
      rw [List.find?_cons_of_neg]
      · exact ih
      · simp [hp]

/-- C1 amended: no host mutation invokes `nginx -t` and no rollback exists —
an accepted update commits the merged record to the store, persists it to the
data file, leaves the freshly rendered fragment (not the prior one) on disk,
invokes reload unconditionally, and never reports an error to the operator,
all regardless of whether nginx would accept the new fragment. -/
theorem update_commits_without_validation (s : Sys) (id : Str) (req : ProxyHost)
    (now : Int) (reloadOk : Bool) (s1 : Sys)
    (h : updateHost s id req now = (s1, .ok)) :
    (handleUpdateHost s id req now reloadOk).sys = s1 ∧
    (handleUpdateHost s id req now reloadOk).reloadCalled = true ∧
    (∀ m, (handleUpdateHost s id req now reloadOk).resp ≠ HostResponse.badRequest m) ∧
    s1.dataFile = s1.hosts ∧
    ∃ host, s.hosts.find? (fun x => decide (x.id = id)) = some host ∧
      lookupAvail s1.avail (configFileName (mergeUpdate host req now).domain)
        = some (renderProxyHost (mergeUpdate host req now)) := by
  have hh : handleUpdateHost s id req now reloadOk
      = ⟨s1, if reloadOk then .ok
             else .okWarning "Host updated but nginx reload failed".data, true⟩ := by
    unfold handleUpdateHost
    rw [h]
    by_cases hr : reloadOk <;> simp [hr]
  refine ⟨by rw [hh], by rw [hh], ?_, ?_, ?_⟩
  · intro m
    rw [hh]
    by_cases hr : reloadOk <;> simp [hr]
  · unfold updateHost at h
    split at h
    · simp at h
    · split at h
      · simp at h
      · rw [Prod.mk.injEq] at h
        obtain ⟨h1, -⟩ := h
        rw [← h1]
        rfl
  · unfold updateHost at h
    split at h
    · simp at h
    · rename_i host hfind
      split at h
      · simp at h
      · rw [Prod.mk.injEq] at h
        obtain ⟨h1, -⟩ := h
        refine ⟨host, hfind, ?_⟩
        rw [← h1]
        exact lookupAvail_setAvail _ _ _

/-- C1 witness: the amended behaviour at the concrete S2 scenario. -/
theorem update_commits_without_validation_witness :
    (handleUpdateHost sysS1 hostS1.id reqS2 5 true).sys = sysS2 ∧
    (handleUpdateHost sysS1 hostS1.id reqS2 5 true).reloadCalled = true := by
  have h := update_commits_without_validation sysS1 hostS1.id reqS2 5 true sysS2
    (Prod.ext rfl (by decide))
  exact ⟨h.1, h.2.1⟩

/-- C1 counterexample: with an oracle under which every fragment fails
`nginx -t` (as in scenario S2), the update still mutates the store, leaves a
different fragment on disk, invokes reload and reports success. -/
theorem rollback_counterexample : ¬ rollbackClaim := by
  intro hcl
  have h := hcl (fun _ => false) sysS1 hostS1.id reqS2 5 true hostS1 (by decide) rfl
  exact absurd h.2.1 (by decide)

/-! ## Claim C2 — the rendered TLS block ignores the bound certificate -/

/-- C2 (code-bug evidence): at a TLS-enabled host with a bound certificate,
the rendered fragment contains no active `ssl_certificate` or
`ssl_certificate_key` directive at all — in particular none referencing the
host's certPath/keyPath — while a commented-out Let\x27s Encrypt placeholder
line is present; hence the claimed property fails. -/
theorem tls_block_commented_out :
    hostC2.ssl = true ∧ hostC2.certificateId ≠ [] ∧
    hasActiveDirective (renderProxyHost hostC2) "ssl_certificate".data hostC2.certPath = false ∧
    hasActiveDirective (renderProxyHost hostC2) "ssl_certificate_key".data hostC2.keyPath = false ∧
    (splitOnChar '\n' (renderProxyHost hostC2)).any
      (fun l => strStartsWith "# ssl_certificate /etc/letsencrypt/live/".data (trimSpaces l))
      = true ∧
    ¬ tlsBlockClaim := by
  refine ⟨rfl, by decide, by decide, by decide, by decide, ?_⟩
  intro hcl
  have h := hcl hostC2 rfl (by decide)
  exact absurd h.1 (by decide)

/-! ## Claim C5 — tag deletion does not scrub tag references -/

/-- C5 amended: `deleteTag` removes only the tag entity: the proxy-host store
is passed through untouched, certificate records are untouched (so any
certificate or host holding the tag id keeps it as a dangling reference), and
on success only the tag map loses the entry; on failure nothing changes. -/
theorem deleteTag_no_scrub (s : Sys) (cs : CertSys) (id : Str) :
    (handleDeleteTag s cs id).1 = s ∧
    (handleDeleteTag s cs id).2.1.certs = cs.certs ∧
    ((handleDeleteTag s cs id).2.2 = .ok →
      (handleDeleteTag s cs id).2.1.tags = cs.tags.filter (fun t => decide (t.id ≠ id))) ∧
    ((handleDeleteTag s cs id).2.2 ≠ .ok → (handleDeleteTag s cs id).2.1 = cs) := by
  unfold handleDeleteTag deleteTag
  by_cases h : cs.tags.any (fun t => decide (t.id = id)) = true
  · rw [if_pos h]
    exact ⟨rfl, rfl, fun _ => rfl, fun hne => absurd rfl hne⟩
  · rw [if_neg h]
    refine ⟨rfl, rfl, fun hok => ?_, fun _ => rfl⟩
    simp at hok
/-- C5 witness: the amended behaviour at a concrete store. -/
theorem deleteTag_no_scrub_witness :
    (handleDeleteTag sysC4 certSysC5 "t1".data).2.1.certs = certSysC5.certs ∧
    (handleDeleteTag sysC4 certSysC5 "t1".data).2.1.tags
      = certSysC5.tags.filter (fun t => decide (t.id ≠ "t1".data)) := by
  have h := deleteTag_no_scrub sysC4 certSysC5 "t1".data
  exact ⟨h.2.1, h.2.2.1 (by decide)⟩

/-- C5 counterexample: after deleting tag `t1`, the certificate that carried
`t1` still carries it (and so does the host). -/
theorem tag_scrub_counterexample : ¬ tagScrubClaim := by
  intro hcl
  have h := hcl sysC4 certSysC5 "t1".data (by decide)
  exact (h.1 certC1 (by decide)) (by decide)

/-! ## Claim C6 — certificate deletion ignores host references -/

/-- C6 amended: deleting a certificate never consults the proxy-host store:
it succeeds exactly when the id resolves, in which case the files and the map
entry are removed even if hosts still reference the certificate. -/
theorem deleteCertificate_ignores_references (s : Sys) (cs : CertSys) (id : Str) :
    (handleDeleteCertificate s cs id).1 = s ∧
    ((handleDeleteCertificate s cs id).2.2 = .ok ↔ ∃ c ∈ cs.certs, c.id = id) ∧
    ((handleDeleteCertificate s cs id).2.2 = .ok →
      (handleDeleteCertificate s cs id).2.1.certs
        = cs.certs.filter (fun c => decide (c.id ≠ id))) := by
  unfold handleDeleteCertificate
  rcases hf : cs.certs.find? (fun c => decide (c.id = id)) with _ | cert
  · simp only [deleteCertificate, hf]
    refine ⟨by trivial, ?_, ?_⟩
    · constructor
      · intro h; simp at h
      · rintro ⟨c, hc, hcid⟩
        have hnone := List.find?_eq_none.mp hf c hc
        exact absurd (decide_eq_true hcid) hnone
    · intro h; simp at h
  · simp only [deleteCertificate, hf]
    refine ⟨by trivial, ?_, fun _ => by trivial⟩
    constructor
    · intro _
      exact ⟨cert, List.mem_of_find?_eq_some hf, by simpa using List.find?_some hf⟩
    · intro _
      trivial

/-- C6 witness: deleting the concretely referenced certificate `c1`
succeeds and empties the certificate map. -/
theorem deleteCertificate_ignores_references_witness :
    (handleDeleteCertificate sysC4 certSysC5 "c1".data).2.2 = .ok ∧
    (handleDeleteCertificate sysC4 certSysC5 "c1".data).2.1.certs = [] := by
  have h := deleteCertificate_ignores_references sysC4 certSysC5 "c1".data
  have hok : (handleDeleteCertificate sysC4 certSysC5 "c1".data).2.2 = .ok :=
    h.2.1.mpr ⟨certC1, by decide, by decide⟩
  refine ⟨hok, ?_⟩
  rw [h.2.2 hok]
  decide

/-- C6 counterexample: the host `hostC4` references certificate `c1`, yet
deletion succeeds and removes the certificate. -/
theorem cert_ref_integrity_counterexample : ¬ certRefIntegrityClaim := by
  intro hcl
  have h := hcl sysC4 certSysC5 "c1".data ⟨hostC4, by decide, by decide⟩
  exact h.1 (by decide)

/-! ## Claim C7 — load-balanced mode is not validated -/

/-- C7 amended: with a non-empty backends list, Create succeeds exactly when
the domain validates and is not a duplicate — the backend addresses and the
load-balancing policy are never inspected; Update acceptance likewise does
not depend on the backends or the policy at all. -/
theorem lb_mode_not_validated (s : Sys) (req : ProxyHost) (newId : Str) (now : Int)
    (hlb : req.backends ≠ []) :
    ((createHost s req newId now).2 = .ok ↔
      (validateDomain req.domain = true ∧
       s.hosts.any (fun h => decide (h.domain = req.domain)) = false)) ∧
    (∀ (id : Str) (upd : ProxyHost) (now2 : Int) (b1 b2 : List Backend) (m1 m2 : Str),
      (updateHost s id { upd with backends := b1, lbMethod := m1 } now2).2
        = (updateHost s id { upd with backends := b2, lbMethod := m2 } now2).2) := by
  constructor
  · have hbe : req.backends.isEmpty = false := by
      cases hb : req.backends with
      | nil => exact absurd hb hlb
      | cons a t => rfl
    unfold createHost
    by_cases hv : validateDomain req.domain
    · by_cases hdup : s.hosts.any (fun h => decide (h.domain = req.domain)) = true
      · simp [hv, hbe, hdup]
      · simp [hv, hbe, hdup]
    · simp [hv, hbe]
  · intro id upd now2 b1 b2 m1 m2
    unfold updateHost
    cases hf : s.hosts.find? (fun x => decide (x.id = id)) with
    | none => rfl
    | some host =>
      change ((if upd.domain ≠ host.domain ∧
          (s.hosts.any fun h => decide (h.id ≠ id) && decide (h.domain = upd.domain)) = true
        then _ else _ : Sys × MutOut)).2
        = ((if upd.domain ≠ host.domain ∧
          (s.hosts.any fun h => decide (h.id ≠ id) && decide (h.domain = upd.domain)) = true
        then _ else _ : Sys × MutOut)).2
      by_cases hcond : upd.domain ≠ host.domain ∧
          (s.hosts.any fun h => decide (h.id ≠ id) && decide (h.domain = upd.domain)) = true
      · rw [if_pos hcond, if_pos hcond]
      · rw [if_neg hcond, if_neg hcond]

/-- C7 witness: the malformed load-balanced request `reqC7` is accepted. -/
theorem lb_mode_not_validated_witness :
    (createHost emptySys reqC7 "id1".data 0).2 = .ok ∧ specLBValid reqC7 = false := by
  have h := lb_mode_not_validated emptySys reqC7 "id1".data 0 (by decide)
  exact ⟨h.1.mpr ⟨by decide, by decide⟩, by decide⟩

/-- C7 counterexample: the create request with an unparsable backend address
and an unknown policy is accepted with side effects, refuting the claimed
rejection. -/
theorem lb_validation_counterexample : ¬ lbValidationClaim := by
  intro hcl
  have h := hcl emptySys reqC7 "id1".data 0 (by decide) (by decide)
  exact h.2 (by decide)

/-! ## Claim C9 — the auto-renew scan -/

theorem tdiv_lt_30_iff (x : Int) : x.tdiv nsPerDay < 30 ↔ x < 30 * nsPerDay := by
  have hpos : (0 : Int) < nsPerDay := by norm_num [nsPerDay]
  by_cases hx : 0 ≤ x
  · rw [Int.tdiv_eq_ediv hx (le_of_lt hpos)]
    exact Int.ediv_lt_iff_lt_mul hpos
  · push_neg at hx
    constructor
    · intro _
      calc x < 0 := hx
        _ ≤ 30 * nsPerDay := by positivity
    · intro _
      have h1 : (0 : Int) ≤ (-x).tdiv nsPerDay :=
        Int.tdiv_nonneg (by linarith) (le_of_lt hpos)
      have h2 : x.tdiv nsPerDay = -((-x).tdiv nsPerDay) := by
        rw [← Int.neg_tdiv, neg_neg]
      rw [h2]
      linarith

theorem checkAutoRenew_go (now : Int) :
    ∀ (certs : List Certificate) (acc : List RenewalItem),
    certs.foldl (fun acc c =>
      if !c.autoRenew || c.ctype ≠ "letsencrypt".data then acc
      else if goDaysUntil now c.expiresAt < 30 then acc ++ [renewalEntry now c] else acc) acc
    = acc ++ (certs.filter (fun c => c.autoRenew && decide (c.ctype = "letsencrypt".data)
        && decide (c.expiresAt - now < 30 * nsPerDay))).map (renewalEntry now) := by
  intro certs
  induction certs with
  | nil => intro acc; simp
  | cons c l ih =>
    intro acc
    simp only [List.foldl_cons, List.filter_cons]
    by_cases har : c.autoRenew = true
    · by_cases hct : c.ctype = "letsencrypt".data
      · have hc1 : ¬ ((!c.autoRenew || c.ctype ≠ "letsencrypt".data) = true) := by
          simp [har, hct]
        by_cases hlt : c.expiresAt - now < 30 * nsPerDay
        · have hdiv : goDaysUntil now c.expiresAt < 30 := (tdiv_lt_30_iff _).mpr hlt
          rw [if_neg hc1, if_pos hdiv, ih, if_pos (by simp [har, hct, hlt])]
          simp [List.append_assoc]
        · have hdiv : ¬ goDaysUntil now c.expiresAt < 30 :=
            fun hc => hlt ((tdiv_lt_30_iff _).mp hc)
          rw [if_neg hc1, if_neg hdiv, ih, if_neg (by simp [hlt])]
      · rw [if_pos (by simp [hct]), ih, if_neg (by simp [hct])]
    · rw [if_pos (by simp [har]), ih, if_neg (by simp [har])]

/-- C9 amended: the scan — a pure function of the certificate list — returns
exactly the certificates with `autoRenew`, letsencrypt provenance and less
than 30 days to expiry, each reported with `daysUntilExpiry` equal to the
days until expiry truncated toward zero: nonpositive when expired, but 0
rather than negative when expired by less than one day. -/
theorem checkAutoRenew_spec (certs : List Certificate) (now : Int) :
    checkAutoRenew certs now
      = (certs.filter (fun c => c.autoRenew && decide (c.ctype = "letsencrypt".data)
          && decide (c.expiresAt - now < 30 * nsPerDay))).map (renewalEntry now) := by
  unfold checkAutoRenew
  simpa using checkAutoRenew_go now certs []

/-- C9 counterexample: a certificate expired twelve hours ago is reported with
`daysUntilExpiry = 0`, not a negative value. -/
theorem renewal_negative_counterexample : ¬ renewalNegativeClaim := by
  intro hcl
  have h := hcl [certC9] 0 (renewalEntry 0 certC9) (by decide) (by decide)
  exact absurd h (by decide)

/-! ## Claim C10 — ApplyCertificate deadlocks in save before persisting -/

/-- C10 counterexample: at a concrete existing host, `ApplyCertificate` ends
`.deadlocked` with the data file untouched — it neither persists the store
nor reaches the `writeConfig` panic, refuting the claim as stated. -/
theorem apply_persists_then_panics_counterexample : ¬ applyPersistsThenPanicsClaim := by
  intro hcl
  have h := hcl sysS1 hostS1.id "c1".data "/c1.crt".data "/c1.key".data 9 hostS1 (by decide)
  exact absurd h.2 (by decide)

/-- C10 amended: for an existing host id, `ApplyCertificate` mutates the
in-memory host record (certificate binding, `ssl`, `updatedAt`) and then
self-deadlocks inside `save` — the `RLock` taken there can never be granted
while this call still write-holds the mutex — so it never returns success,
never persists the store (the data file keeps its prior contents), never
reaches the panic of the unimplemented `writeConfig`, and never touches the
fragments or symlinks. -/
theorem applyCertificate_deadlocks_before_persist (s : Sys) (hostID certID cp kp : Str)
    (now : Int) (host : ProxyHost)
    (hf : s.hosts.find? (fun x => decide (x.id = hostID)) = some host) :
    applyCertificate s hostID certID cp kp now
      = ({ s with
            hosts := replaceById s.hosts hostID (applyCertForm host certID cp kp now) },
         ApplyOut.deadlocked) ∧
    (applyCertificate s hostID certID cp kp now).2 ≠ ApplyOut.ok ∧
    (∀ m, (applyCertificate s hostID certID cp kp now).2 ≠ ApplyOut.panicked m) ∧
    (applyCertificate s hostID certID cp kp now).1.dataFile = s.dataFile ∧
    (applyCertificate s hostID certID cp kp now).1.avail = s.avail ∧
    (applyCertificate s hostID certID cp kp now).1.enabledLinks = s.enabledLinks := by
  have heq : applyCertificate s hostID certID cp kp now
      = ({ s with
            hosts := replaceById s.hosts hostID (applyCertForm host certID cp kp now) },
         ApplyOut.deadlocked) := by
    simp only [applyCertificate, hf]
    rfl
  refine ⟨heq, ?_, ?_, ?_, ?_, ?_⟩
  · rw [heq]; simp
  · intro m; rw [heq]; simp
  · rw [heq]
  · rw [heq]
  · rw [heq]

/-- C10 witness: the deadlock outcome and the unpersisted data file at a
concrete host. -/
theorem applyCertificate_deadlocks_before_persist_witness :
    (applyCertificate sysS1 hostS1.id "c1".data "/c1.crt".data "/c1.key".data 9).2
      = ApplyOut.deadlocked ∧
    (applyCertificate sysS1 hostS1.id "c1".data "/c1.crt".data "/c1.key".data 9).1.dataFile
      = sysS1.dataFile := by
  have h := applyCertificate_deadlocks_before_persist sysS1 hostS1.id "c1".data "/c1.crt".data
    "/c1.key".data 9 hostS1 (by decide)
  exact ⟨by rw [h.1], h.2.2.2.1⟩
